import Mathlib

/-!
Verification of the `mousetrap-record` extension (src/mousetrap-record.js).

The module wraps a key-binding dispatcher (Mousetrap): while a recording is
active it accumulates keydown/keyup events into combos, closes a combo on a
release or re-entry boundary, restarts a single-shot idle timer on every
boundary, and on timer expiry normalizes the recorded sequence and hands it
to the completion callback.

The shallow embedding below translates the module-level mutable variables of
the source into an explicit `RecordState`, the event handlers into pure
state-transformers returning the observable callback invocations as a list of
`Effect`s, and JavaScript string comparison (`x > y` on strings, used by the
combo sort comparator) into lexicographic comparison of the character lists.
`Array.prototype.sort` with the source's consistent comparator is embedded as
`List.insertionSort` over the comparator's "cmp ≤ 0" relation.
-/

/-! ## JavaScript string comparison (`x < y` on strings, code-unit lexicographic) -/

/-- Lexicographic `<` on character lists, mirroring JavaScript's relational
comparison of strings code unit by code unit: a strict prefix is smaller. -/
def charLt : List Char → List Char → Bool
  | _, [] => false
  | [], _ :: _ => true
  | a :: as, b :: bs => if a < b then true else if b < a then false else charLt as bs

/-- JavaScript `x < y` on strings. -/
def strLt (x y : String) : Bool := charLt x.data y.data

/-- JavaScript `¬ (x > y)`, i.e. the "comparator returned ≤ 0" relation of the
else-branch `return x > y ? 1 : -1` in `_normalizeSequence`. -/
def strLe (x y : String) : Bool := !(strLt y x)

/-! ## JavaScript values and truthiness

The `record()` arguments `timeout`, `preventDefault`, `noRepeat` are resolved
with `arg || _config.field`, so their JavaScript truthiness matters. -/

/-- A small universe of the JavaScript values relevant to the configuration
arguments (`NaN` and objects never occur in the spec'd usage). -/
inductive JSVal where
  | undef : JSVal
  | null : JSVal
  | num : Nat → JSVal
  | bool : Bool → JSVal
  | str : String → JSVal
deriving DecidableEq, Repr

/-- JavaScript truthiness: `undefined`, `null`, `0`, `false` and `""` are falsy. -/
def truthy : JSVal → Bool
  | .undef => false
  | .null => false
  | .num n => n != 0
  | .bool b => b
  | .str s => s != ""

/-! ## Events, effects, configuration, state -/

/-- The raw platform event as consumed by `_handleKey`: it reads `e.type`
(compared against the strings "keydown"/"keyup") and `e.repeat`. -/
structure RawEvent where
  type : String
  «repeat» : Bool
deriving DecidableEq, Repr

/-- Observable actions of the module, in the order they are performed:
invoking the progress callback, invoking the completion callback (through the
wrapper installed by `record`), calling `e.preventDefault()`, or forwarding
the event to the original `handleKey` of the dispatcher. -/
inductive Effect where
  | progress : List String → Effect
  | complete : List String → Effect
  | preventDefaultCall : Effect
  | forward : String → List String → RawEvent → Effect
deriving DecidableEq, Repr

/-- The merged construction-time configuration `_config`. -/
structure Config where
  timeout : JSVal
  preventDefault : JSVal
  noRepeat : JSVal
deriving DecidableEq, Repr

/-- Construction-time options; `none` means the key is absent from the
`options` object passed to the module function. -/
structure ConfigOptions where
  timeout : Option JSVal := none
  preventDefault : Option JSVal := none
  noRepeat : Option JSVal := none

/-- `Object.assign({timeout: 1000, preventDefault: false, noRepeat: false}, options)`. -/
def mergeConfig (o : ConfigOptions) : Config where
  timeout := o.timeout.getD (.num 1000)
  preventDefault := o.preventDefault.getD (.bool false)
  noRepeat := o.noRepeat.getD (.bool false)

/-- The module-level mutable variables of the source, together with the
dispatcher instance's `recording` flag. The two callback variables are
modelled by their nullness only (`has…Callback`), since the completion
callback is always the wrapper installed by `record` and the arguments passed
to the callbacks are reported as `Effect`s. `_recordTimer` is modelled by
whether a scheduled timer fire is pending. -/
structure RecordState where
  recordedSequence : List (List String)
  hasSequenceCallback : Bool
  hasProgressCallback : Bool
  currentRecordedKeys : List String
  recordedCharacterKey : Bool
  timerPending : Bool
  recordTimeout : JSVal
  preventDefault : JSVal
  noRepeat : JSVal
  recording : Bool
  config : Config
deriving DecidableEq, Repr

/-- The state right after the module function has run: all module variables
empty or `null`, the resolved flags initialized from the merged config, and
the dispatcher's `recording` flag unset. -/
def initState (cfg : Config) : RecordState where
  recordedSequence := []
  hasSequenceCallback := false
  hasProgressCallback := false
  currentRecordedKeys := []
  recordedCharacterKey := false
  timerPending := false
  recordTimeout := cfg.timeout
  preventDefault := cfg.preventDefault
  noRepeat := cfg.noRepeat
  recording := false
  config := cfg

/-! ## The combo normalizer (`_normalizeSequence`) -/

/-- The comparator of `_normalizeSequence` as a "cmp ≤ 0" Boolean relation:
`(x, y)` compares `-1` when `x.length > 1 && y.length === 1`, `1` when
`x.length === 1 && y.length > 1`, else `x > y ? 1 : -1`. -/
def comboLE (x y : String) : Bool :=
  if 1 < x.length ∧ y.length = 1 then true
  else if x.length = 1 ∧ 1 < y.length then false
  else strLe x y

/-- `comboLE` as a relation, to drive `List.insertionSort`. -/
def comboR (x y : String) : Prop := comboLE x y = true

instance : DecidableRel comboR := fun x y => inferInstanceAs (Decidable (comboLE x y = true))

/-- `sequence[i].sort(comparator)`: the sorted permutation of a combo under
the source's comparator. On the duplicate-free combos the module builds, the
comparator is a strict total order, so this is exactly what
`Array.prototype.sort` returns. -/
def sortCombo (c : List String) : List String := List.insertionSort comboR c

/-- `Array.prototype.join('+')`. -/
def joinPlus : List String → String
  | [] => ""
  | x :: xs => xs.foldl (fun acc k => acc ++ "+" ++ k) x

/-- One combo of `_normalizeSequence`: sort, then join with `'+'`. -/
def normalizeCombo (c : List String) : String := joinPlus (sortCombo c)

/-- The value left in `sequence` by `_normalizeSequence`: every combo sorted
and `'+'`-joined, combo order preserved. -/
def normalizeSequence (seq : List (List String)) : List String := seq.map normalizeCombo

/-! ## The recording state machine -/

/-- `_restartRecordTimer`: cancel any pending fire and schedule a new one. -/
def restartRecordTimer (s : RecordState) : RecordState := { s with timerPending := true }

/-- `_recordCurrentCombo`: push the accumulator into the sequence, clear the
accumulator and the character-key flag, restart the idle timer. -/
def recordCurrentCombo (s : RecordState) : RecordState :=
  restartRecordTimer
    { s with
      recordedSequence := s.recordedSequence ++ [s.currentRecordedKeys]
      currentRecordedKeys := []
      recordedCharacterKey := false }

/-- `_recordKey`: a no-op when the key is already held; otherwise push the key,
raise the character-key flag for a single-character key, and notify the
progress callback if registered.

The progress notification in the source is
`seq = _recordedSequence.concat([_currentRecordedKeys]); _normalizeSequence(seq)`.
`concat` copies only the outer array, so the in-place `sequence[i].sort(…)`
inside `_normalizeSequence` reorders the inner arrays that are shared with
`_recordedSequence` and `_currentRecordedKeys`; the embedding makes that
aliasing explicit by replacing the stored combos with their sorted versions. -/
def recordKey (key : String) (s : RecordState) : RecordState × List Effect :=
  if key ∈ s.currentRecordedKeys then (s, [])
  else
    let cur := s.currentRecordedKeys ++ [key]
    let flag := if key.length = 1 then true else s.recordedCharacterKey
    if s.hasProgressCallback then
      ({ s with
          currentRecordedKeys := sortCombo cur
          recordedSequence := s.recordedSequence.map sortCombo
          recordedCharacterKey := flag },
        [Effect.progress (normalizeSequence (s.recordedSequence ++ [cur]))])
    else
      ({ s with currentRecordedKeys := cur, recordedCharacterKey := flag }, [])

/-- The `for` loop over `modifiers` in `_handleKey`, followed by further keys:
record each key in order, accumulating the emitted effects. -/
def recordKeys (keys : List String) (s : RecordState) : RecordState × List Effect :=
  match keys with
  | [] => (s, [])
  | k :: ks =>
    let r := recordKey k s
    let r' := recordKeys ks r.1
    (r'.1, r.2 ++ r'.2)

/-- `_handleKey character modifiers e`. -/
def handleKey (character : String) (modifiers : List String) (e : RawEvent)
    (s : RecordState) : RecordState × List Effect :=
  if truthy s.noRepeat && e.«repeat» then (s, [])
  else if !s.recording then (s, [Effect.forward character modifiers e])
  else
    let pd : List Effect := if truthy s.preventDefault then [Effect.preventDefaultCall] else []
    if e.type == "keydown" then
      let s1 := if character.length = 1 ∧ s.recordedCharacterKey then recordCurrentCombo s else s
      let r1 := recordKeys modifiers s1
      let r2 := recordKey character r1.1
      (r2.1, pd ++ r1.2 ++ r2.2)
    else if e.type == "keyup" && decide (0 < s.currentRecordedKeys.length) then
      (recordCurrentCombo s, pd)
    else (s, pd)

/-- `_finishRecording`: when the completion callback is registered (it is the
wrapper installed by `record`, which first clears the dispatcher's `recording`
flag), normalize the sequence and invoke it; in any case clear the sequence,
the callback reference, and the accumulator. The source does not touch
`_recordedCharacterKey` here. -/
def finishRecording (s : RecordState) : RecordState × List Effect :=
  if s.hasSequenceCallback then
    ({ s with
        recordedSequence := []
        hasSequenceCallback := false
        currentRecordedKeys := []
        recording := false },
      [Effect.complete (normalizeSequence s.recordedSequence)])
  else
    ({ s with
        recordedSequence := []
        hasSequenceCallback := false
        currentRecordedKeys := [] }, [])

/-- The scheduled timer firing: only a pending `setTimeout` can fire, and it
runs `_finishRecording`. -/
def timerFire (s : RecordState) : RecordState × List Effect :=
  if s.timerPending then finishRecording { s with timerPending := false } else (s, [])

/-- `Mousetrap.prototype.record(callback, timeout, preventDefault, noRepeat,
progressCallback)`: set the `recording` flag, resolve each option with
`arg || _config.field`, store the progress callback, and install the
completion-callback wrapper. -/
def record (timeout preventDefault noRepeat : JSVal) (hasProgress : Bool)
    (s : RecordState) : RecordState :=
  { s with
      recording := true
      recordTimeout := if truthy timeout then timeout else s.config.timeout
      hasProgressCallback := hasProgress
      preventDefault := if truthy preventDefault then preventDefault else s.config.preventDefault
      noRepeat := if truthy noRepeat then noRepeat else s.config.noRepeat
      hasSequenceCallback := true }

/-! ## Traces -/

/-- One external stimulus: a raw key event reaching the patched `handleKey`,
the pending idle timer firing, or a call to `record`. -/
inductive Act where
  | key : String → List String → RawEvent → Act
  | fire : Act
  | recordCall : JSVal → JSVal → JSVal → Bool → Act
deriving DecidableEq, Repr

/-- Execute one stimulus. -/
def stepA : Act → RecordState → RecordState × List Effect
  | .key c m e, s => handleKey c m e s
  | .fire, s => timerFire s
  | .recordCall t p n pg, s => (record t p n pg s, [])

/-- Execute a list of stimuli in order, accumulating the emitted effects. -/
def run : List Act → RecordState → RecordState × List Effect
  | [], s => (s, [])
  | a :: as, s =>
    let r := stepA a s
    let r' := run as r.1
    (r'.1, r.2 ++ r'.2)

/-! ## Order properties of the comparator -/

theorem charLt_nil_right (as : List Char) : charLt as [] = false := by
  cases as <;> rfl

theorem charLt_asymm : ∀ as bs, charLt as bs = true → charLt bs as = true → False
  | _, [], h1, _ => by rw [charLt_nil_right] at h1; exact Bool.false_ne_true h1
  | [], _ :: _, _, h2 => by rw [charLt_nil_right] at h2; exact Bool.false_ne_true h2
  | a :: as, b :: bs, h1, h2 => by
    rw [charLt] at h1 h2
    by_cases hab : a < b
    · rw [if_neg (lt_asymm hab), if_pos hab] at h2
      exact Bool.false_ne_true h2
    · by_cases hba : b < a
      · simp only [if_neg hab, if_pos hba] at h1
        exact Bool.false_ne_true h1
      · simp only [if_neg hab, if_neg hba] at h1 h2
        exact charLt_asymm as bs h1 h2

theorem charLt_trans :
    ∀ as bs cs, charLt as bs = true → charLt bs cs = true → charLt as cs = true
  | _, [], _, h1, _ => by rw [charLt_nil_right] at h1; exact absurd h1 (by simp)
  | _, _ :: _, [], _, h2 => by rw [charLt_nil_right] at h2; exact absurd h2 (by simp)
  | [], _ :: _, _ :: _, _, _ => rfl
  | a :: as, b :: bs, c :: cs, h1, h2 => by
    rw [charLt] at h1 h2 ⊢
    by_cases hab : a < b
    · by_cases hbc : b < c
      · simp [lt_trans hab hbc]
      · by_cases hcb : c < b
        · simp only [if_neg hbc, if_pos hcb] at h2
          exact absurd h2 (by simp)
        · have hbceq : b = c := le_antisymm (not_lt.mp hcb) (not_lt.mp hbc)
          subst hbceq
          simp [hab]
    · by_cases hba : b < a
      · simp only [if_neg hab, if_pos hba] at h1
        exact absurd h1 (by simp)
      · have habeq : a = b := le_antisymm (not_lt.mp hba) (not_lt.mp hab)
        subst habeq
        simp only [if_neg hab, if_neg hba] at h1
        by_cases hac : a < c
        · simp [hac]
        · by_cases hca : c < a
          · simp only [if_neg hac, if_pos hca] at h2
            exact absurd h2 (by simp)
          · simp only [if_neg hac, if_neg hca] at h2 ⊢
            exact charLt_trans as bs cs h1 h2

theorem charLt_connex :
    ∀ as bs, charLt as bs = false → charLt bs as = false → as = bs
  | [], [], _, _ => rfl
  | [], _ :: _, h1, _ => by rw [charLt] at h1; exact absurd h1 (by simp)
  | _ :: _, [], _, h2 => by rw [charLt] at h2; exact absurd h2 (by simp)
  | a :: as, b :: bs, h1, h2 => by
    rw [charLt] at h1 h2
    by_cases hab : a < b
    · simp only [if_pos hab] at h1
      exact absurd h1 (by simp)
    · by_cases hba : b < a
      · simp only [if_pos hba] at h2
        exact absurd h2 (by simp)
      · have habeq : a = b := le_antisymm (not_lt.mp hba) (not_lt.mp hab)
        simp only [if_neg hab, if_neg hba] at h1
        simp only [if_neg hba, if_neg hab] at h2
        rw [habeq, charLt_connex as bs h1 h2]

theorem strLe_total (x y : String) : strLe x y = true ∨ strLe y x = true := by
  unfold strLe strLt
  by_cases h : charLt y.data x.data = true
  · right
    cases hxy : charLt x.data y.data
    · rfl
    · exact absurd (charLt_asymm _ _ hxy h) (fun f => f)
  · left
    simp [Bool.not_eq_true] at h
    simp [h]

theorem strLe_trans {x y z : String} (h1 : strLe x y = true) (h2 : strLe y z = true) :
    strLe x z = true := by
  unfold strLe strLt at h1 h2 ⊢
  rw [Bool.not_eq_true'] at h1 h2 ⊢
  by_cases hzx : charLt z.data x.data = true
  · by_cases hxy : charLt x.data y.data = true
    · exact absurd (charLt_trans _ _ _ hzx hxy) (by simp [h2])
    · have := charLt_connex _ _ h1 (by simpa using hxy)
      rw [this] at h2
      exact absurd hzx (by simp [h2])
  · simpa using hzx

theorem strLe_antisymm {x y : String} (h1 : strLe x y = true) (h2 : strLe y x = true) :
    x = y := by
  unfold strLe strLt at h1 h2
  rw [Bool.not_eq_true'] at h1 h2
  exact String.ext (charLt_connex _ _ h2 h1)

theorem strLe_of_length_zero {x y : String} (h : x.length = 0) : strLe x y = true := by
  have hx : x.data = [] := List.length_eq_zero.mp h
  unfold strLe strLt
  rw [hx, charLt_nil_right]
  rfl

theorem strLe_eq_false_of_length_zero {x y : String} (hy : y.length = 0)
    (hx : 1 ≤ x.length) : strLe x y = false := by
  have hy' : y.data = [] := List.length_eq_zero.mp hy
  unfold strLe strLt
  rw [hy']
  cases hd : x.data with
  | nil => exact absurd hx (by simp [String.length, hd])
  | cons c cs => rw [charLt]; rfl

theorem comboLE_of_mod_char {x y : String} (hx : 1 < x.length) (hy : y.length = 1) :
    comboLE x y = true := by
  unfold comboLE
  rw [if_pos ⟨hx, hy⟩]

theorem comboLE_of_char_mod {x y : String} (hx : x.length = 1) (hy : 1 < y.length) :
    comboLE x y = false := by
  unfold comboLE
  rw [if_neg (fun h => absurd h.2 (by omega)), if_pos ⟨hx, hy⟩]

theorem comboLE_eq_strLe {x y : String} (h1 : ¬(1 < x.length ∧ y.length = 1))
    (h2 : ¬(x.length = 1 ∧ 1 < y.length)) : comboLE x y = strLe x y := by
  unfold comboLE
  rw [if_neg h1, if_neg h2]

theorem comboLE_true_elim {x y : String} (h : comboLE x y = true) :
    (1 < x.length ∧ y.length = 1) ∨
      (¬(x.length = 1 ∧ 1 < y.length) ∧ strLe x y = true) := by
  unfold comboLE at h
  by_cases h1 : 1 < x.length ∧ y.length = 1
  · exact Or.inl h1
  · rw [if_neg h1] at h
    by_cases h2 : x.length = 1 ∧ 1 < y.length
    · rw [if_pos h2] at h
      exact absurd h (by simp)
    · rw [if_neg h2] at h
      exact Or.inr ⟨h2, h⟩

instance : IsTotal String comboR where
  total x y := by
    unfold comboR
    by_cases h1 : 1 < x.length ∧ y.length = 1
    · exact Or.inl (comboLE_of_mod_char h1.1 h1.2)
    · by_cases h2 : x.length = 1 ∧ 1 < y.length
      · exact Or.inr (comboLE_of_mod_char h2.2 h2.1)
      · rw [comboLE_eq_strLe h1 h2,
          comboLE_eq_strLe (fun h => h2 ⟨h.2, h.1⟩) (fun h => h1 ⟨h.2, h.1⟩)]
        exact strLe_total x y

instance : IsTrans String comboR where
  trans x y z hxy hyz := by
    unfold comboR at hxy hyz ⊢
    rcases comboLE_true_elim hxy with ⟨hPx, hQy⟩ | ⟨hn1, hle1⟩
    · rcases comboLE_true_elim hyz with ⟨hPy, _⟩ | ⟨hn2, hle2⟩
      · exact absurd hPy (by omega)
      · by_cases hQz : z.length = 1
        · exact comboLE_of_mod_char hPx hQz
        · have hz0 : z.length = 0 := by
            rcases hn2 with hn2
            by_cases hPz : 1 < z.length
            · exact absurd ⟨hQy, hPz⟩ hn2
            · omega
          have hfalse : strLe y z = false := strLe_eq_false_of_length_zero hz0 (by omega)
          exact absurd hle2 (by simp [hfalse])
    · rcases comboLE_true_elim hyz with ⟨hPy, hQz⟩ | ⟨hn2, hle2⟩
      · have hnQx : ¬x.length = 1 := fun hQx => hn1 ⟨hQx, hPy⟩
        by_cases hPx : 1 < x.length
        · exact comboLE_of_mod_char hPx hQz
        · have hx0 : x.length = 0 := by omega
          rw [comboLE_eq_strLe (by omega) (by omega)]
          exact strLe_of_length_zero hx0
      · have hle : strLe x z = true := strLe_trans hle1 hle2
        by_cases hc1 : 1 < x.length ∧ z.length = 1
        · exact comboLE_of_mod_char hc1.1 hc1.2
        · by_cases hc2 : x.length = 1 ∧ 1 < z.length
          · have hnPy : ¬1 < y.length := fun hPy => hn1 ⟨hc2.1, hPy⟩
            have hnQy : ¬y.length = 1 := fun hQy => hn2 ⟨hQy, hc2.2⟩
            have hy0 : y.length = 0 := by omega
            have hfalse : strLe x y = false := strLe_eq_false_of_length_zero hy0 (by omega)
            exact absurd hle1 (by simp [hfalse])
          · rw [comboLE_eq_strLe hc1 hc2]
            exact hle

instance : IsAntisymm String comboR where
  antisymm x y hxy hyx := by
    unfold comboR at hxy hyx
    rcases comboLE_true_elim hxy with ⟨hPx, hQy⟩ | ⟨hn1, hle1⟩
    · rcases comboLE_true_elim hyx with ⟨hPy, _⟩ | ⟨hn2, _⟩
      · exact absurd hPy (by omega)
      · exact absurd ⟨hQy, hPx⟩ hn2
    · rcases comboLE_true_elim hyx with ⟨hPy, hQx⟩ | ⟨_, hle2⟩
      · exact absurd ⟨hQx, hPy⟩ hn1
      · exact strLe_antisymm hle1 hle2

/-! ## Sorting facts for the normalizer -/

theorem sortCombo_sorted (c : List String) : List.Sorted comboR (sortCombo c) :=
  List.sorted_insertionSort comboR c

theorem sortCombo_perm (c : List String) : List.Perm (sortCombo c) c :=
  List.perm_insertionSort comboR c

theorem sortCombo_idem (c : List String) : sortCombo (sortCombo c) = sortCombo c :=
  List.Sorted.insertionSort_eq (sortCombo_sorted c)

theorem sortCombo_nodup {c : List String} (h : c.Nodup) : (sortCombo c).Nodup :=
  ((sortCombo_perm c).nodup_iff).mpr h

theorem sortCombo_singleton (s : String) : sortCombo [s] = [s] := rfl

theorem normalizeCombo_singleton (s : String) : normalizeCombo [s] = s := rfl

/-! ## Spec-side ordering for the normalizer contract -/

/-- Plain lexicographic `≤` on strings, as a relation. -/
def lexR (x y : String) : Prop := strLe x y = true

instance : DecidableRel lexR := fun x y => inferInstanceAs (Decidable (strLe x y = true))

instance : IsTotal String lexR where
  total x y := strLe_total x y

instance : IsTrans String lexR where
  trans _ _ _ h1 h2 := strLe_trans h1 h2

/-- Spec-side normalization of one combo, following §4.2 of the spec: all
modifier/named keys (length > 1) first in lexicographic order, then all
character keys (length 1) in lexicographic order, joined with `+`. -/
def specNormalizeCombo (c : List String) : String :=
  joinPlus (List.insertionSort lexR (c.filter fun k => decide (1 < k.length)) ++
    List.insertionSort lexR (c.filter fun k => decide (k.length = 1)))

theorem mem_insertionSort_filter {c : List String} {p : String → Bool} {a : String}
    (h : a ∈ List.insertionSort lexR (c.filter p)) : p a = true :=
  (List.mem_filter.mp ((List.mem_insertionSort lexR).mp h)).2

theorem sortCombo_groups (c : List String) (h : ∀ k ∈ c, 1 ≤ k.length) :
    sortCombo c = List.insertionSort lexR (c.filter fun k => decide (1 < k.length)) ++
      List.insertionSort lexR (c.filter fun k => decide (k.length = 1)) := by
  apply List.eq_of_perm_of_sorted (r := comboR)
  · have hfilters :
        c.filter (fun k => !decide (1 < k.length)) = c.filter (fun k => decide (k.length = 1)) := by
      apply List.filter_congr
      intro x hx
      have hx1 : 1 ≤ x.length := h x hx
      by_cases hgt : 1 < x.length
      · simp [hgt]
        omega
      · simp [hgt]
        omega
    have hp2 : List.Perm c (c.filter (fun k => decide (1 < k.length)) ++
        c.filter (fun k => !decide (1 < k.length))) :=
      (List.filter_append_perm _ c).symm
    rw [hfilters] at hp2
    exact (sortCombo_perm c).trans (hp2.trans
      (List.Perm.append (List.perm_insertionSort lexR _).symm
        (List.perm_insertionSort lexR _).symm))
  · exact sortCombo_sorted c
  · rw [List.Sorted, List.pairwise_append]
    refine ⟨?_, ?_, ?_⟩
    · apply List.Pairwise.imp_of_mem ?_ (List.sorted_insertionSort lexR _)
      intro a b ha hb hab
      have hPa : 1 < a.length := of_decide_eq_true (mem_insertionSort_filter ha)
      have hPb : 1 < b.length := of_decide_eq_true (mem_insertionSort_filter hb)
      unfold comboR
      rw [comboLE_eq_strLe (by omega) (by omega)]
      exact hab
    · apply List.Pairwise.imp_of_mem ?_ (List.sorted_insertionSort lexR _)
      intro a b ha hb hab
      have hQa : a.length = 1 := of_decide_eq_true (mem_insertionSort_filter ha)
      have hQb : b.length = 1 := of_decide_eq_true (mem_insertionSort_filter hb)
      unfold comboR
      rw [comboLE_eq_strLe (by omega) (by omega)]
      exact hab
    · intro a ha b hb
      have hPa : 1 < a.length := of_decide_eq_true (mem_insertionSort_filter ha)
      have hQb : b.length = 1 := of_decide_eq_true (mem_insertionSort_filter hb)
      exact comboLE_of_mod_char hPa hQb

/-! ## Frame lemmas for the state machine -/

theorem recordKey_frame (k : String) (s : RecordState) :
    (recordKey k s).1.recording = s.recording ∧
      (recordKey k s).1.timerPending = s.timerPending ∧
      (recordKey k s).1.hasProgressCallback = s.hasProgressCallback ∧
      (recordKey k s).1.hasSequenceCallback = s.hasSequenceCallback ∧
      (recordKey k s).1.config = s.config := by
  unfold recordKey
  by_cases hmem : k ∈ s.currentRecordedKeys
  · simp [hmem]
  · by_cases hpg : s.hasProgressCallback = true <;> simp [hmem, hpg]

theorem recordKey_noComplete (k : String) (s : RecordState) (sq : List String) :
    Effect.complete sq ∉ (recordKey k s).2 := by
  unfold recordKey
  by_cases hmem : k ∈ s.currentRecordedKeys
  · simp [hmem]
  · by_cases hpg : s.hasProgressCallback = true <;> simp [hmem, hpg]

theorem recordKey_seq_of_noProgress (k : String) (s : RecordState)
    (h : s.hasProgressCallback = false) :
    (recordKey k s).1.recordedSequence = s.recordedSequence := by
  unfold recordKey
  by_cases hmem : k ∈ s.currentRecordedKeys <;> simp [hmem, h]

theorem recordKeys_frame (ks : List String) (s : RecordState) :
    (recordKeys ks s).1.recording = s.recording ∧
      (recordKeys ks s).1.timerPending = s.timerPending ∧
      (recordKeys ks s).1.hasProgressCallback = s.hasProgressCallback ∧
      (recordKeys ks s).1.hasSequenceCallback = s.hasSequenceCallback ∧
      (recordKeys ks s).1.config = s.config := by
  induction ks generalizing s with
  | nil => simp [recordKeys]
  | cons k ks ih =>
    have h1 := recordKey_frame k s
    have h2 := ih (recordKey k s).1
    exact ⟨h2.1.trans h1.1, h2.2.1.trans h1.2.1, h2.2.2.1.trans h1.2.2.1,
      h2.2.2.2.1.trans h1.2.2.2.1, h2.2.2.2.2.trans h1.2.2.2.2⟩

theorem recordKeys_noComplete (ks : List String) (s : RecordState) (sq : List String) :
    Effect.complete sq ∉ (recordKeys ks s).2 := by
  induction ks generalizing s with
  | nil => simp [recordKeys]
  | cons k ks ih =>
    rw [recordKeys]
    simp only [List.mem_append]
    rintro (h | h)
    · exact recordKey_noComplete k s sq h
    · exact ih (recordKey k s).1 h

theorem recordKeys_seq_of_noProgress (ks : List String) (s : RecordState)
    (h : s.hasProgressCallback = false) :
    (recordKeys ks s).1.recordedSequence = s.recordedSequence := by
  induction ks generalizing s with
  | nil => simp [recordKeys]
  | cons k ks ih =>
    rw [recordKeys]
    have h' : (recordKey k s).1.hasProgressCallback = false :=
      ((recordKey_frame k s).2.2.1).trans h
    exact (ih (recordKey k s).1 h').trans (recordKey_seq_of_noProgress k s h)

/-- Sequential recording splits over list append: the source's modifier loop
followed by the character key is one `recordKeys` run. -/
theorem recordKeys_append (xs ys : List String) (s : RecordState) :
    recordKeys (xs ++ ys) s =
      ((recordKeys ys (recordKeys xs s).1).1,
        (recordKeys xs s).2 ++ (recordKeys ys (recordKeys xs s).1).2) := by
  induction xs generalizing s with
  | nil => simp [recordKeys]
  | cons x xs ih =>
    rw [List.cons_append, recordKeys, recordKeys, ih (recordKey x s).1]
    simp [List.append_assoc]

theorem recordKeys_singleton (k : String) (s : RecordState) :
    recordKeys [k] s = recordKey k s := by
  rw [recordKeys, recordKeys]
  simp

/-! ## Duplicate-freedom invariant -/

/-- Every key set the module holds is duplicate-free: the accumulator and every
combo already pushed into the sequence. -/
def StateNodup (s : RecordState) : Prop :=
  s.currentRecordedKeys.Nodup ∧ ∀ c ∈ s.recordedSequence, c.Nodup

theorem recordKey_stateNodup (k : String) (s : RecordState) (h : StateNodup s) :
    StateNodup (recordKey k s).1 := by
  unfold recordKey
  by_cases hmem : k ∈ s.currentRecordedKeys
  · simpa [hmem] using h
  · have hcur : (s.currentRecordedKeys ++ [k]).Nodup := by
      rw [List.nodup_append]
      refine ⟨h.1, List.nodup_singleton k, ?_⟩
      intro a ha hak
      rw [List.mem_singleton] at hak
      exact hmem (hak ▸ ha)
    by_cases hpg : s.hasProgressCallback = true
    · simp only [hmem, hpg, if_neg, if_pos, ite_true, ite_false]
      refine ⟨sortCombo_nodup hcur, ?_⟩
      intro c hc
      rcases List.mem_map.mp hc with ⟨c₀, hc₀, rfl⟩
      exact sortCombo_nodup (h.2 c₀ hc₀)
    · simp only [hmem, hpg, if_neg, ite_false, ite_true]
      exact ⟨hcur, h.2⟩

theorem recordKeys_stateNodup (ks : List String) (s : RecordState) (h : StateNodup s) :
    StateNodup (recordKeys ks s).1 := by
  induction ks generalizing s with
  | nil => simpa [recordKeys] using h
  | cons k ks ih => exact ih (recordKey k s).1 (recordKey_stateNodup k s h)

theorem recordCurrentCombo_stateNodup (s : RecordState) (h : StateNodup s) :
    StateNodup (recordCurrentCombo s) := by
  refine ⟨List.nodup_nil, ?_⟩
  intro c hc
  rcases List.mem_append.mp hc with hc | hc
  · exact h.2 c hc
  · rw [List.mem_singleton.mp hc]
    exact h.1

theorem handleKey_stateNodup (ch : String) (mods : List String) (e : RawEvent)
    (s : RecordState) (h : StateNodup s) : StateNodup (handleKey ch mods e s).1 := by
  unfold handleKey
  by_cases h1 : (truthy s.noRepeat && e.«repeat») = true
  · simpa [h1] using h
  · by_cases h2 : (!s.recording) = true
    · simp only [h1, h2, if_pos, ite_false, ite_true]
      exact h
    · simp only [h1, h2, ite_false]
      by_cases h3 : (e.type == "keydown") = true
      · simp only [h3, ite_true]
        by_cases h4 : ch.length = 1 ∧ s.recordedCharacterKey
        · simp only [h4, ite_true]
          exact recordKey_stateNodup _ _
            (recordKeys_stateNodup _ _ (recordCurrentCombo_stateNodup s h))
        · simp only [h4, ite_false]
          exact recordKey_stateNodup _ _ (recordKeys_stateNodup _ _ h)
      · simp only [h3, ite_false]
        by_cases h5 : (e.type == "keyup" && decide (0 < s.currentRecordedKeys.length)) = true
        · simp only [h5, ite_true]
          exact recordCurrentCombo_stateNodup s h
        · simpa [h5] using h

theorem finishRecording_stateNodup (s : RecordState) :
    StateNodup (finishRecording s).1 := by
  unfold finishRecording
  by_cases h : s.hasSequenceCallback = true <;> simp [h, StateNodup]

theorem stepA_stateNodup (a : Act) (s : RecordState) (h : StateNodup s) :
    StateNodup (stepA a s).1 := by
  cases a with
  | key c m e => exact handleKey_stateNodup c m e s h
  | fire =>
    unfold stepA timerFire
    by_cases hp : s.timerPending = true
    · simp only [hp, ite_true]
      exact finishRecording_stateNodup _
    · simpa [hp] using h
  | recordCall t p n pg => exact h

/-! ## Boundary-free runs (no combo ever closes) -/

/-- A stimulus that causes no combo boundary in state `s`: for a key event,
neither a keyup with a non-empty accumulator nor a keydown of a
single-character key while the character-key flag is set. Non-key stimuli
never close a combo. -/
def actBoundaryFree (s : RecordState) : Act → Prop
  | .key ch _ e =>
      ¬(e.type = "keyup" ∧ s.currentRecordedKeys ≠ []) ∧
        ¬(e.type = "keydown" ∧ ch.length = 1 ∧ s.recordedCharacterKey = true)
  | .fire => True
  | .recordCall _ _ _ _ => True

/-- A whole trace of stimuli is boundary-free when each one is boundary-free
in the state where it executes. -/
def NoBoundaryRun : RecordState → List Act → Prop
  | _, [] => True
  | s, a :: as => actBoundaryFree s a ∧ NoBoundaryRun (stepA a s).1 as

theorem stepA_noBoundary (a : Act) (s : RecordState) (hb : actBoundaryFree s a)
    (hp : s.timerPending = false) (hr : s.recording = true) :
    (stepA a s).1.timerPending = false ∧ (stepA a s).1.recording = true ∧
      ∀ sq, Effect.complete sq ∉ (stepA a s).2 := by
  cases a with
  | fire =>
    unfold stepA timerFire
    simp [hp, hr]
  | recordCall t p n pg =>
    unfold stepA record
    exact ⟨hp, rfl, by simp⟩
  | key ch mods e =>
    unfold stepA handleKey
    by_cases h1 : (truthy s.noRepeat && e.«repeat») = true
    · simp [h1, hp, hr]
    · have h2 : (!s.recording) = false := by rw [hr]; rfl
      simp only [h1, h2, Bool.false_eq_true, ite_false]
      by_cases h3 : (e.type == "keydown") = true
      · have htype : e.type = "keydown" := by
          exact eq_of_beq h3
        have h4 : ¬(ch.length = 1 ∧ s.recordedCharacterKey) := by
          intro hcond
          exact hb.2 ⟨htype, hcond.1, hcond.2⟩
        simp only [h3, h4, ite_true, ite_false]
        have hk1 := recordKeys_frame mods s
        have hk2 := recordKey_frame ch (recordKeys mods s).1
        refine ⟨hk2.2.1.trans (hk1.2.1.trans hp), hk2.1.trans (hk1.1.trans hr), ?_⟩
        intro sq
        simp only [List.mem_append]
        rintro ((hmem | hmem) | hmem)
        · by_cases hpd : truthy s.preventDefault = true <;> simp [hpd] at hmem
        · exact recordKeys_noComplete mods s sq hmem
        · exact recordKey_noComplete ch (recordKeys mods s).1 sq hmem
      · simp only [h3, ite_false]
        by_cases h5 : (e.type == "keyup" && decide (0 < s.currentRecordedKeys.length)) = true
        · rcases Bool.and_eq_true_iff.mp h5 with ⟨h5a, h5b⟩
          have htype : e.type = "keyup" := eq_of_beq h5a
          have hne : s.currentRecordedKeys ≠ [] := by
            intro hnil
            rw [hnil] at h5b
            simp at h5b
          exact absurd ⟨htype, hne⟩ hb.1
        · simp only [h5, ite_false]
          refine ⟨hp, hr, ?_⟩
          intro sq
          by_cases hpd : truthy s.preventDefault = true <;> simp [hpd]

theorem run_noBoundary (acts : List Act) (s : RecordState)
    (hp : s.timerPending = false) (hr : s.recording = true)
    (hnb : NoBoundaryRun s acts) :
    (run acts s).1.timerPending = false ∧ (run acts s).1.recording = true ∧
      ∀ sq, Effect.complete sq ∉ (run acts s).2 := by
  induction acts generalizing s with
  | nil => exact ⟨hp, hr, by simp [run]⟩
  | cons a as ih =>
    have hstep := stepA_noBoundary a s hnb.1 hp hr
    have hrest := ih (stepA a s).1 hstep.1 hstep.2.1 hnb.2
    rw [run]
    refine ⟨hrest.1, hrest.2.1, ?_⟩
    intro sq
    simp only [List.mem_append]
    rintro (hmem | hmem)
    · exact hstep.2.2 sq hmem
    · exact hrest.2.2 sq hmem

theorem forall₂_perm_map_sortCombo (l : List (List String)) :
    List.Forall₂ (fun a b => List.Perm a b) (l.map sortCombo) l := by
  induction l with
  | nil => exact List.Forall₂.nil
  | cons c l ih => exact List.Forall₂.cons (sortCombo_perm c) ih

/-! ## The claims -/

/-- C1: when the idle timer fires during an active recording session (timer
pending, completion callback registered), the callback is invoked with the
normalized sequence, and afterwards the sequence, the accumulator and the
callback reference are cleared and the dispatcher's recording flag is false. -/
theorem recording_finishes_on_idle_fire (s : RecordState)
    (hcb : s.hasSequenceCallback = true) (hrec : s.recording = true)
    (hp : s.timerPending = true) :
    (timerFire s).2 = [Effect.complete (normalizeSequence s.recordedSequence)] ∧
      (timerFire s).1.recordedSequence = [] ∧
      (timerFire s).1.currentRecordedKeys = [] ∧
      (timerFire s).1.hasSequenceCallback = false ∧
      (timerFire s).1.recording = false := by
  unfold timerFire finishRecording
  simp [hp, hcb]

def c1State : RecordState :=
  { initState (mergeConfig {}) with
      recording := true
      hasSequenceCallback := true
      timerPending := true
      recordedSequence := [["ctrl", "k"]] }

theorem recording_finishes_on_idle_fire_witness :
    c1State.hasSequenceCallback = true ∧ c1State.recording = true ∧
      c1State.timerPending = true ∧
      ((timerFire c1State).2 = [Effect.complete (normalizeSequence c1State.recordedSequence)] ∧
        (timerFire c1State).1.recordedSequence = [] ∧
        (timerFire c1State).1.currentRecordedKeys = [] ∧
        (timerFire c1State).1.hasSequenceCallback = false ∧
        (timerFire c1State).1.recording = false) :=
  ⟨by decide, by decide, by decide,
    recording_finishes_on_idle_fire c1State (by decide) (by decide) (by decide)⟩

/-- C3: on a duplicate-free combo of key names, the normalizer produces all
modifier/named keys (length > 1) first in lexicographic order, then all
character keys (length 1) in lexicographic order, joined with `+`. -/
theorem normalizeCombo_orders_modifiers_first (c : List String) (hnd : c.Nodup)
    (hlen : ∀ k ∈ c, 1 ≤ k.length) : normalizeCombo c = specNormalizeCombo c := by
  unfold normalizeCombo specNormalizeCombo
  rw [sortCombo_groups c hlen]

theorem normalizeCombo_orders_modifiers_first_witness :
    (["k", "ctrl"] : List String).Nodup ∧
      (∀ k ∈ (["k", "ctrl"] : List String), 1 ≤ k.length) ∧
      normalizeCombo ["k", "ctrl"] = specNormalizeCombo ["k", "ctrl"] ∧
      normalizeCombo ["k", "ctrl"] = "ctrl+k" :=
  ⟨by decide, by decide,
    normalizeCombo_orders_modifiers_first ["k", "ctrl"] (by decide) (by decide), by decide⟩

/-- C6: a falsy `record()` argument for `timeout`, `preventDefault` or
`noRepeat` resolves to the merged construction-time configuration value. -/
theorem record_falsy_args_fall_back_to_config (s : RecordState) (t p n : JSVal) (pg : Bool) :
    (truthy t = false → (record t p n pg s).recordTimeout = s.config.timeout) ∧
      (truthy p = false → (record t p n pg s).preventDefault = s.config.preventDefault) ∧
      (truthy n = false → (record t p n pg s).noRepeat = s.config.noRepeat) := by
  unfold record
  refine ⟨?_, ?_, ?_⟩ <;> intro h <;> simp [h]

theorem record_falsy_args_fall_back_to_config_witness :
    truthy (.num 0) = false ∧ truthy (.bool false) = false ∧ truthy (.str "") = false ∧
      (record (.num 0) (.bool false) (.str "") false
        (initState (mergeConfig {}))).recordTimeout = JSVal.num 1000 ∧
      (record (.num 0) (.bool false) (.str "") false
        (initState (mergeConfig {}))).preventDefault = JSVal.bool false ∧
      (record (.num 0) (.bool false) (.str "") false
        (initState (mergeConfig {}))).noRepeat = JSVal.bool false :=
  ⟨by decide, by decide, by decide,
    ((record_falsy_args_fall_back_to_config (initState (mergeConfig {}))
      (.num 0) (.bool false) (.str "") false).1 (by decide)).trans (by decide),
    ((record_falsy_args_fall_back_to_config (initState (mergeConfig {}))
      (.num 0) (.bool false) (.str "") false).2.1 (by decide)).trans (by decide),
    ((record_falsy_args_fall_back_to_config (initState (mergeConfig {}))
      (.num 0) (.bool false) (.str "") false).2.2 (by decide)).trans (by decide)⟩

/-- C7: adding an already-held key is a strict no-op (state unchanged, no
progress callback) and every stimulus preserves duplicate-freedom of the
accumulator and of every recorded combo. -/
theorem recordKey_idempotent_and_nodup_invariant (s : RecordState) (key : String) (a : Act) :
    (key ∈ s.currentRecordedKeys → recordKey key s = (s, [])) ∧
      (StateNodup s → StateNodup (stepA a s).1) :=
  ⟨fun hmem => by unfold recordKey; simp [hmem], stepA_stateNodup a s⟩

def c7State : RecordState :=
  { initState (mergeConfig {}) with
      recording := true
      hasSequenceCallback := true
      currentRecordedKeys := ["a"]
      recordedCharacterKey := true
      recordedSequence := [["ctrl", "k"]] }

def c7Act : Act := Act.key "b" [] ⟨"keydown", false⟩

theorem recordKey_idempotent_and_nodup_invariant_witness :
    ("a" ∈ c7State.currentRecordedKeys ∧ StateNodup c7State) ∧
      recordKey "a" c7State = (c7State, []) ∧ StateNodup (stepA c7Act c7State).1 :=
  ⟨⟨by decide, ⟨by decide, by decide⟩⟩,
    (recordKey_idempotent_and_nodup_invariant c7State "a" c7Act).1 (by decide),
    (recordKey_idempotent_and_nodup_invariant c7State "a" c7Act).2 ⟨by decide, by decide⟩⟩

/-- C8: normalization is idempotent. Re-applying the normalizer to its own
output (each combo string taken as a one-element combo, which is how an
already-normalized sequence reads) returns the same list, and re-sorting an
already-sorted combo returns the same order. -/
theorem normalization_idempotent (seq : List (List String)) (c : List String) :
    normalizeSequence ((normalizeSequence seq).map (fun s => [s])) = normalizeSequence seq ∧
      sortCombo (sortCombo c) = sortCombo c := by
  refine ⟨?_, sortCombo_idem c⟩
  unfold normalizeSequence
  rw [List.map_map]
  simp [Function.comp, normalizeCombo_singleton]

/-- The "a then b with no intervening keyup" trace of C2: record with the
default configuration, press `a`, press `b` while `a` is still down, release,
then let the idle timer fire. -/
def c2Trace : List Act :=
  [Act.recordCall .undef .undef .undef false,
    Act.key "a" [] ⟨"keydown", false⟩,
    Act.key "b" [] ⟨"keydown", false⟩,
    Act.key "a" [] ⟨"keyup", false⟩,
    Act.fire]

/-- C2: a keydown of a single-character key processed while recording, when the
current combo already holds a character key, first closes the current combo
(appending its key set to the sequence and restarting the idle timer) and only
then records the modifiers and the new key; typing "a" then "b" without a
keyup in between therefore delivers the two-combo sequence `["a", "b"]`. -/
theorem reentry_boundary_closes_combo_first (s : RecordState) (ch : String)
    (mods : List String) (e : RawEvent)
    (hnr : (truthy s.noRepeat && e.«repeat») = false) (hrec : s.recording = true)
    (htype : e.type = "keydown") (hch : ch.length = 1)
    (hflag : s.recordedCharacterKey = true) :
    (handleKey ch mods e s =
        ((recordKeys (mods ++ [ch]) (recordCurrentCombo s)).1,
          (if truthy s.preventDefault then [Effect.preventDefaultCall] else []) ++
            (recordKeys (mods ++ [ch]) (recordCurrentCombo s)).2)) ∧
      (s.hasProgressCallback = false →
        (handleKey ch mods e s).1.recordedSequence =
          s.recordedSequence ++ [s.currentRecordedKeys]) ∧
      (handleKey ch mods e s).1.timerPending = true ∧
      (run c2Trace (initState (mergeConfig {}))).2 = [Effect.complete ["a", "b"]] := by
  have hbeq : (e.type == "keydown") = true := by rw [htype]; rfl
  have hcond : ch.length = 1 ∧ s.recordedCharacterKey := ⟨hch, by rw [hflag]⟩
  have hnotrec : (!s.recording) = false := by rw [hrec]; rfl
  have hmain : handleKey ch mods e s =
      ((recordKeys (mods ++ [ch]) (recordCurrentCombo s)).1,
        (if truthy s.preventDefault then [Effect.preventDefaultCall] else []) ++
          (recordKeys (mods ++ [ch]) (recordCurrentCombo s)).2) := by
    unfold handleKey
    rw [hnr, hbeq]
    simp only [Bool.false_eq_true, ite_false, hnotrec, hcond, ite_true]
    rw [recordKeys_append mods [ch] (recordCurrentCombo s), recordKeys_singleton]
    simp [List.append_assoc]
  refine ⟨hmain, ?_, ?_, by decide⟩
  · intro hpg
    rw [hmain]
    have h1 : (recordCurrentCombo s).hasProgressCallback = false := hpg
    have h2 := recordKeys_seq_of_noProgress (mods ++ [ch]) (recordCurrentCombo s) h1
    exact h2.trans rfl
  · rw [hmain]
    exact (recordKeys_frame (mods ++ [ch]) (recordCurrentCombo s)).2.1.trans rfl

def c2State : RecordState :=
  { initState (mergeConfig {}) with
      recording := true
      hasSequenceCallback := true
      currentRecordedKeys := ["a"]
      recordedCharacterKey := true }

theorem reentry_boundary_closes_combo_first_witness :
    ((truthy c2State.noRepeat && false) = false ∧ c2State.recording = true ∧
        ("b" : String).length = 1 ∧ c2State.recordedCharacterKey = true ∧
        c2State.hasProgressCallback = false) ∧
      ((handleKey "b" [] ⟨"keydown", false⟩ c2State =
          ((recordKeys ([] ++ ["b"]) (recordCurrentCombo c2State)).1,
            (if truthy c2State.preventDefault then [Effect.preventDefaultCall] else []) ++
              (recordKeys ([] ++ ["b"]) (recordCurrentCombo c2State)).2)) ∧
        (c2State.hasProgressCallback = false →
          (handleKey "b" [] ⟨"keydown", false⟩ c2State).1.recordedSequence =
            c2State.recordedSequence ++ [c2State.currentRecordedKeys]) ∧
        (handleKey "b" [] ⟨"keydown", false⟩ c2State).1.timerPending = true ∧
        (run c2Trace (initState (mergeConfig {}))).2 = [Effect.complete ["a", "b"]]) :=
  ⟨⟨by decide, by decide, by decide, by decide, by decide⟩,
    reentry_boundary_closes_combo_first c2State "b" [] ⟨"keydown", false⟩
      (by decide) (by decide) (by decide) (by decide) (by decide)⟩

/-- The construction-time configuration of the C4 scenario: `noRepeat: true`. -/
def c4State : RecordState := initState (mergeConfig { noRepeat := some (.bool true) })

/-- C4: with `noRepeat` configured and the dispatcher not recording, an
auto-repeat keydown is dropped entirely instead of being forwarded to the
original `handleKey` (the `noRepeat` check precedes the recording check),
while a non-repeat event is forwarded. -/
theorem norepeat_drops_event_while_idle :
    c4State.recording = false ∧
      handleKey "a" [] ⟨"keydown", true⟩ c4State = (c4State, []) ∧
      handleKey "a" [] ⟨"keydown", false⟩ c4State =
        (c4State, [Effect.forward "a" [] ⟨"keydown", false⟩]) := by
  decide

/-- The C5 scenario: recording with a progress callback, `shift` already in the
current combo accumulator. -/
def c5State : RecordState :=
  { initState (mergeConfig {}) with
      recording := true
      hasSequenceCallback := true
      hasProgressCallback := true
      currentRecordedKeys := ["shift"] }

/-- C5 counterexample: recording `ctrl` on top of the held `shift` invokes the
progress callback, but afterwards the live accumulator is `["ctrl", "shift"]`,
not its pre-invocation value `["shift", "ctrl"]`: the shallow `concat` copy
lets `_normalizeSequence` sort the shared inner array in place. -/
theorem progress_callback_mutates_accumulator :
    (recordKey "ctrl" c5State).2 = [Effect.progress ["ctrl+shift"]] ∧
      (recordKey "ctrl" c5State).1.currentRecordedKeys = ["ctrl", "shift"] ∧
      (recordKey "ctrl" c5State).1.currentRecordedKeys ≠
        c5State.currentRecordedKeys ++ ["ctrl"] := by
  decide

/-- C5 amended: a progress invocation reports the correctly normalized copy of
sequence-plus-accumulator, and it preserves the stored sequence and the
accumulator only up to reordering: each stored combo keeps the same key set
(it is replaced by its sorted permutation), but not necessarily its element
order. -/
theorem progress_callback_preserves_key_sets (s : RecordState) (key : String)
    (hpg : s.hasProgressCallback = true) (hnew : key ∉ s.currentRecordedKeys) :
    (recordKey key s).2 =
        [Effect.progress
          (normalizeSequence (s.recordedSequence ++ [s.currentRecordedKeys ++ [key]]))] ∧
      List.Perm (recordKey key s).1.currentRecordedKeys (s.currentRecordedKeys ++ [key]) ∧
      List.Forall₂ (fun a b => List.Perm a b)
        (recordKey key s).1.recordedSequence s.recordedSequence := by
  unfold recordKey
  rw [if_neg hnew, if_pos hpg]
  exact ⟨rfl, sortCombo_perm _, forall₂_perm_map_sortCombo _⟩

theorem progress_callback_preserves_key_sets_witness :
    (c5State.hasProgressCallback = true ∧ "ctrl" ∉ c5State.currentRecordedKeys) ∧
      ((recordKey "ctrl" c5State).2 =
          [Effect.progress
            (normalizeSequence
              (c5State.recordedSequence ++ [c5State.currentRecordedKeys ++ ["ctrl"]]))] ∧
        List.Perm (recordKey "ctrl" c5State).1.currentRecordedKeys
          (c5State.currentRecordedKeys ++ ["ctrl"]) ∧
        List.Forall₂ (fun a b => List.Perm a b)
          (recordKey "ctrl" c5State).1.recordedSequence c5State.recordedSequence) :=
  ⟨⟨by decide, by decide⟩,
    progress_callback_preserves_key_sets c5State "ctrl" (by decide) (by decide)⟩

/-- The C9 trace, first session: record, press and release `a` (closing the
combo and arming the timer), press `b` without releasing, timer fires. -/
def c9FirstSession : List Act :=
  [Act.recordCall .undef .undef .undef false,
    Act.key "a" [] ⟨"keydown", false⟩,
    Act.key "a" [] ⟨"keyup", false⟩,
    Act.key "b" [] ⟨"keydown", false⟩,
    Act.fire]

/-- The full C9 trace: after the first session ends with `b` still held, a
second session records a single `c`. -/
def c9Trace : List Act :=
  c9FirstSession ++
    [Act.recordCall .undef .undef .undef false,
      Act.key "c" [] ⟨"keydown", false⟩,
      Act.key "c" [] ⟨"keyup", false⟩,
      Act.fire]

/-- C9: the completion path violates the "empty accumulator implies cleared
character-key flag" invariant. After the first session's timer fires while `b`
is still held, the accumulator is empty but `_recordedCharacterKey` is still
set (it is not reset by `_finishRecording`), so the second session's first
character keydown takes the re-entry branch and pushes an empty combo: the
second delivered sequence is `["", "c"]` instead of `["c"]`. -/
theorem character_flag_leak_creates_empty_combo :
    ((run c9FirstSession (initState (mergeConfig {}))).1.currentRecordedKeys = [] ∧
        (run c9FirstSession (initState (mergeConfig {}))).1.recordedCharacterKey = true) ∧
      (run c9Trace (initState (mergeConfig {}))).2 =
        [Effect.complete ["a"], Effect.complete ["", "c"]] := by
  decide

/-- C10: `record()` leaves the timer handle untouched (the timer is armed only
by `_recordCurrentCombo`), and a session in which no combo boundary ever
occurs — no keyup with a non-empty accumulator, no re-entry keydown — never
fires the completion callback and leaves the recording flag set. -/
theorem timer_scheduled_only_on_combo_boundary (s : RecordState) (acts : List Act)
    (t p n : JSVal) (pg : Bool) (hp : s.timerPending = false)
    (hrec : s.recording = true) (hnb : NoBoundaryRun s acts) :
    (record t p n pg s).timerPending = s.timerPending ∧
      (run acts s).1.timerPending = false ∧
      (run acts s).1.recording = true ∧
      ∀ sq, Effect.complete sq ∉ (run acts s).2 := by
  have h := run_noBoundary acts s hp hrec hnb
  exact ⟨rfl, h.1, h.2.1, h.2.2⟩

def c10State : RecordState := record .undef .undef .undef false (initState (mergeConfig {}))

def c10Acts : List Act :=
  [Act.key "ctrl" [] ⟨"keydown", false⟩,
    Act.key "k" ["ctrl"] ⟨"keydown", false⟩,
    Act.fire]

theorem timer_scheduled_only_on_combo_boundary_witness :
    (c10State.timerPending = false ∧ c10State.recording = true ∧
        NoBoundaryRun c10State c10Acts) ∧
      ((record .undef .undef .undef false c10State).timerPending = c10State.timerPending ∧
        (run c10Acts c10State).1.timerPending = false ∧
        (run c10Acts c10State).1.recording = true ∧
        ∀ sq, Effect.complete sq ∉ (run c10Acts c10State).2) :=
  ⟨⟨by decide, by decide, ⟨⟨by decide, by decide⟩, ⟨by decide, by decide⟩, trivial, trivial⟩⟩,
    timer_scheduled_only_on_combo_boundary c10State c10Acts .undef .undef .undef false
      (by decide) (by decide)
      ⟨⟨by decide, by decide⟩, ⟨by decide, by decide⟩, trivial, trivial⟩⟩
